import Mathlib

/-!
# Verification of the `os`-module tutorial repository

The repository is a markdown tutorial on Python's `os` module.  Its only
concrete program text is the example script at the end (`src/main.py`,
lines 244-261), which defines

```python
def clean_directory(directory, extensions_to_keep):
    """Remove files with extensions not in the keep list"""
    for root, dirs, files in os.walk(directory):
        for file in files:
            file_path = os.path.join(root, file)
            _, ext = os.path.splitext(file)
            if ext.lower() not in extensions_to_keep:
                try:
                    os.remove(file_path)
                    print(f"Removed: {file_path}")
                except OSError as e:
                    print(f"Error removing {file_path}: {e}")

extensions = ['.txt', '.pdf', '.jpg']
clean_directory('/path/to/clean', extensions)
```

This file embeds that example shallowly:

* the output of `os.walk(directory)` is taken as input, a list of
  `WalkEntry` triples `(root, dirs, files)`;
* `os.path.splitext`, `ext.lower()` and `os.path.join` are embedded from
  their POSIX semantics (CPython `genericpath._splitext` and
  `posixpath.join`), since the example calls them on basenames and walk
  roots;
* `os.remove` may raise `OSError`; the environment is modelled by a
  failure oracle `fails : String → Bool` telling which paths raise;
* each loop iteration's observable effect (a `Removed:` print after a
  successful removal, an `Error removing` print after a caught
  `OSError`) is recorded as an `Event`;
* `clean_directory` is the list of events; `clean_directory_exc` is the
  same loop written in the exception monad, so that "no `OSError`
  propagates" is a provable statement; `clean_directory_unhandled` is a
  comparison definition that follows the spec's description of the
  repository (only unmodified library calls, no failure handling), under
  which an `OSError` would propagate to the caller.
-/

/-- `str.lower()` on extension strings (ASCII case mapping). -/
def str_lower (s : String) : String := String.mk (s.data.map Char.toLower)

/-- Index of the last occurrence of `c` in a character list (`str.rfind`). -/
def rlast (c : Char) : List Char → Option Nat
  | [] => none
  | a :: as =>
    match rlast c as with
    | some i => some (i + 1)
    | none => if a = c then some 0 else none

/-- `os.path.splitext` (POSIX): split off the extension at the last dot,
unless every character between the last separator and that dot is a dot
(so `.bashrc` has no extension), per CPython `genericpath._splitext`. -/
def splitext (p : String) : String × String :=
  let cs := p.data
  let fStart : Nat := match rlast '/' cs with | none => 0 | some s => s + 1
  match rlast '.' cs with
  | none => (p, "")
  | some d =>
    if fStart ≤ d then
      if ((cs.drop fStart).take (d - fStart)).any (fun ch => ch != '.') then
        (String.mk (cs.take d), String.mk (cs.drop d))
      else (p, "")
    else (p, "")

/-- Two-argument `os.path.join` (POSIX), as called on a walk root and a
file basename, per CPython `posixpath.join`. -/
def os_path_join (a b : String) : String :=
  if b.data.head? == some '/' then b
  else if a.data == [] || a.data.getLast? == some '/' then a ++ b
  else a ++ "/" ++ b

/-- `os.remove(p)`: succeeds, or raises `OSError` when the environment
(the failure oracle `fails`) says removal of `p` fails.  The `OSError`
value is modelled by the offending path. -/
def os_remove (fails : String → Bool) (p : String) : Except String Unit :=
  if fails p then Except.error p else Except.ok ()

/-- One `(root, dirs, files)` triple yielded by `os.walk(directory)`. -/
structure WalkEntry where
  root : String
  dirs : List String
  files : List String
deriving DecidableEq, Repr

/-- Observable effect of one loop iteration of `clean_directory` that
reached `os.remove`: the `Removed:` print after a successful removal, or
the `Error removing ...` print after a caught `OSError`. -/
inductive Event where
  | removed (path : String)
  | errorMsg (path : String) (err : String)
deriving DecidableEq, Repr

/-- The path an event is about. -/
def Event.path : Event → String
  | Event.removed p => p
  | Event.errorMsg p _ => p

/-- Whether an event is a successful removal. -/
def Event.isRemoved : Event → Bool
  | Event.removed _ => true
  | Event.errorMsg _ _ => false

/-- The inner `for file in files:` loop of `clean_directory`, for one walk
entry with root `root`: join the path, split the extension, and when the
lowercased extension is not in the keep list, attempt `os.remove` inside
`try`/`except OSError`, recording the corresponding print as an event. -/
def clean_files (fails : String → Bool) (extensions_to_keep : List String)
    (root : String) : List String → List Event
  | [] => []
  | file :: rest =>
    let file_path := os_path_join root file
    let ext := (splitext file).snd
    if str_lower ext ∉ extensions_to_keep then
      (match os_remove fails file_path with
        | Except.ok _ => Event.removed file_path
        | Except.error e => Event.errorMsg file_path e)
        :: clean_files fails extensions_to_keep root rest
    else clean_files fails extensions_to_keep root rest

/-- `clean_directory(directory, extensions_to_keep)` from the example
script, with the `os.walk(directory)` output and the removal-failure
oracle made explicit: the outer `for root, dirs, files in os.walk(...)`
loop over the inner loop `clean_files`.  Its value is the ordered list of
the call's observable events. -/
def clean_directory (walk : List WalkEntry) (extensions_to_keep : List String)
    (fails : String → Bool) : List Event :=
  match walk with
  | [] => []
  | entry :: rest =>
    clean_files fails extensions_to_keep entry.root entry.files ++
      clean_directory rest extensions_to_keep fails

/-- Python's `try ... except OSError as e: ...` on an `Except` computation. -/
def except_catch {α : Type} (ma : Except String α) (handle : String → Except String α) :
    Except String α :=
  match ma with
  | Except.error e => handle e
  | Except.ok a => Except.ok a

/-- The inner loop of `clean_directory` written in the exception monad:
the `try`/`except OSError` block is `except_catch`, exactly as in the
source, so whether an exception can escape the loop is observable in the
result type. -/
def clean_files_exc (fails : String → Bool) (extensions_to_keep : List String)
    (root : String) : List String → Except String (List Event)
  | [] => Except.ok []
  | file :: rest =>
    let file_path := os_path_join root file
    let ext := (splitext file).snd
    if str_lower ext ∉ extensions_to_keep then
      match except_catch
          (match os_remove fails file_path with
            | Except.ok _ => Except.ok (Event.removed file_path)
            | Except.error e => Except.error e)
          (fun e => Except.ok (Event.errorMsg file_path e)) with
      | Except.ok ev =>
        match clean_files_exc fails extensions_to_keep root rest with
        | Except.ok evs => Except.ok (ev :: evs)
        | Except.error e => Except.error e
      | Except.error e => Except.error e
    else clean_files_exc fails extensions_to_keep root rest

/-- The outer loop of `clean_directory` in the exception monad, over
`clean_files_exc`. -/
def clean_directory_exc (extensions_to_keep : List String) (fails : String → Bool) :
    List WalkEntry → Except String (List Event)
  | [] => Except.ok []
  | entry :: rest =>
    match clean_files_exc fails extensions_to_keep entry.root entry.files with
    | Except.ok evs =>
      match clean_directory_exc extensions_to_keep fails rest with
      | Except.ok more => Except.ok (evs ++ more)
      | Except.error e => Except.error e
    | Except.error e => Except.error e

/-- Comparison definition following the spec's words: the spec says the
repository contributes "no original algorithm, protocol, state machine,
or failure-handling logic" and that "every operation discussed is an
unmodified call into a pre-existing, externally specified interface".
This is the example's inner loop under that description: the same
unmodified library calls, but with no `try`/`except` contributed, so an
`OSError` raised by `os.remove` propagates to the caller. -/
def clean_files_unhandled (fails : String → Bool) (extensions_to_keep : List String)
    (root : String) : List String → Except String (List Event)
  | [] => Except.ok []
  | file :: rest =>
    let file_path := os_path_join root file
    let ext := (splitext file).snd
    if str_lower ext ∉ extensions_to_keep then
      match os_remove fails file_path with
      | Except.ok _ =>
        match clean_files_unhandled fails extensions_to_keep root rest with
        | Except.ok evs => Except.ok (Event.removed file_path :: evs)
        | Except.error e => Except.error e
      | Except.error e => Except.error e
    else clean_files_unhandled fails extensions_to_keep root rest

/-- Outer loop of the spec's no-failure-handling reading of the example. -/
def clean_directory_unhandled (extensions_to_keep : List String) (fails : String → Bool) :
    List WalkEntry → Except String (List Event)
  | [] => Except.ok []
  | entry :: rest =>
    match clean_files_unhandled fails extensions_to_keep entry.root entry.files with
    | Except.ok evs =>
      match clean_directory_unhandled extensions_to_keep fails rest with
      | Except.ok more => Except.ok (evs ++ more)
      | Except.error e => Except.error e
    | Except.error e => Except.error e

/-- The paths a call passes to `os.remove` within one walk entry: the
join of the root with each file whose lowercased extension is not in the
keep list. -/
def attempted_files (extensions_to_keep : List String) (root : String)
    (files : List String) : List String :=
  files.filterMap fun file =>
    if str_lower (splitext file).snd ∈ extensions_to_keep then none
    else some (os_path_join root file)

/-- All paths a call passes to `os.remove`, in traversal order. -/
def attempted_paths (extensions_to_keep : List String) : List WalkEntry → List String
  | [] => []
  | entry :: rest =>
    attempted_files extensions_to_keep entry.root entry.files ++
      attempted_paths extensions_to_keep rest

/-- Outcome of one `os.remove` attempt on path `p` under the failure
oracle: the error print when it raises, the removal print otherwise. -/
def removeEffect (fails : String → Bool) (p : String) : Event :=
  if fails p then Event.errorMsg p p else Event.removed p

/-- A filesystem snapshot: the set of directories and the set of file
paths, as lists. -/
structure FSState where
  dirs : List String
  files : List String
deriving DecidableEq, Repr

/-- Effect of one event on the filesystem: a successful `os.remove`
deletes exactly that file path; a caught error changes nothing.  No event
touches the directories. -/
def applyEvent (s : FSState) : Event → FSState
  | Event.removed p => { s with files := s.files.filter (fun q => q != p) }
  | Event.errorMsg _ _ => s

/-- Effect of a whole event list on the filesystem. -/
def applyEvents (s : FSState) (evs : List Event) : FSState :=
  evs.foldl applyEvent s

/-- "Lowercase, dot-prefixed extension string" (e.g. `".txt"`), the shape
of keep-list entries assumed by claim C3. -/
def isDotLower (s : String) : Bool :=
  match s.data with
  | [] => false
  | c :: _ => c == '.' && s.data.all (fun ch => ch == Char.toLower ch)

/-! ## General lemmas about the embedding -/

theorem clean_files_eq (fails : String → Bool) (keep : List String) (root : String) :
    ∀ files : List String,
      clean_files fails keep root files = (attempted_files keep root files).map (removeEffect fails)
  | [] => rfl
  | file :: rest => by
    simp only [clean_files, attempted_files, List.filterMap_cons]
    by_cases h : str_lower (splitext file).snd ∈ keep
    · simpa [h, attempted_files] using clean_files_eq fails keep root rest
    · by_cases hf : fails (os_path_join root file) = true <;>
        simp [h, hf, os_remove, removeEffect, attempted_files, clean_files_eq fails keep root rest]

theorem clean_directory_eq (keep : List String) (fails : String → Bool) :
    ∀ walk : List WalkEntry,
      clean_directory walk keep fails = (attempted_paths keep walk).map (removeEffect fails)
  | [] => rfl
  | entry :: rest => by
    simp [clean_directory, attempted_paths, clean_files_eq, clean_directory_eq keep fails rest]

theorem clean_files_flatMap (fails : String → Bool) (keep : List String) (root : String) :
    ∀ files : List String,
      clean_files fails keep root files = files.flatMap (fun file =>
        if str_lower (splitext file).snd ∈ keep then []
        else [if fails (os_path_join root file) = true
              then Event.errorMsg (os_path_join root file) (os_path_join root file)
              else Event.removed (os_path_join root file)])
  | [] => rfl
  | file :: rest => by
    simp only [clean_files, List.flatMap_cons]
    by_cases h : str_lower (splitext file).snd ∈ keep
    · simpa [h] using clean_files_flatMap fails keep root rest
    · by_cases hf : fails (os_path_join root file) = true <;>
        simp [h, hf, os_remove, clean_files_flatMap fails keep root rest]

theorem clean_directory_flatMap (keep : List String) (fails : String → Bool) :
    ∀ walk : List WalkEntry,
      clean_directory walk keep fails = walk.flatMap (fun e => e.files.flatMap (fun file =>
        if str_lower (splitext file).snd ∈ keep then []
        else [if fails (os_path_join e.root file) = true
              then Event.errorMsg (os_path_join e.root file) (os_path_join e.root file)
              else Event.removed (os_path_join e.root file)]))
  | [] => rfl
  | entry :: rest => by
    simp only [clean_directory, List.flatMap_cons, clean_files_flatMap,
      clean_directory_flatMap keep fails rest]

theorem clean_files_exc_eq (fails : String → Bool) (keep : List String) (root : String) :
    ∀ files : List String,
      clean_files_exc fails keep root files = Except.ok (clean_files fails keep root files)
  | [] => rfl
  | file :: rest => by
    simp only [clean_files_exc, clean_files]
    by_cases h : str_lower (splitext file).snd ∈ keep
    · simp [h, clean_files_exc_eq fails keep root rest]
    · by_cases hf : fails (os_path_join root file) = true <;>
        simp [h, hf, os_remove, except_catch, clean_files_exc_eq fails keep root rest]

theorem clean_directory_exc_eq (keep : List String) (fails : String → Bool) :
    ∀ walk : List WalkEntry,
      clean_directory_exc keep fails walk = Except.ok (clean_directory walk keep fails)
  | [] => rfl
  | entry :: rest => by
    simp [clean_directory_exc, clean_directory, clean_files_exc_eq,
      clean_directory_exc_eq keep fails rest]

theorem clean_files_unhandled_noFail (keep : List String) (root : String) :
    ∀ files : List String,
      clean_files_unhandled (fun _ => false) keep root files
        = Except.ok (clean_files (fun _ => false) keep root files)
  | [] => rfl
  | file :: rest => by
    simp only [clean_files_unhandled, clean_files]
    by_cases h : str_lower (splitext file).snd ∈ keep <;>
      simp [h, os_remove, clean_files_unhandled_noFail keep root rest]

theorem clean_directory_unhandled_noFail (keep : List String) :
    ∀ walk : List WalkEntry,
      clean_directory_unhandled keep (fun _ => false) walk
        = Except.ok (clean_directory walk keep (fun _ => false))
  | [] => rfl
  | entry :: rest => by
    simp [clean_directory_unhandled, clean_directory, clean_files_unhandled_noFail,
      clean_directory_unhandled_noFail keep rest]

theorem path_removeEffect (fails : String → Bool) (q : String) :
    Event.path (removeEffect fails q) = q := by
  by_cases hf : fails q = true <;> simp [removeEffect, hf, Event.path]

theorem map_path_removeEffect (fails : String → Bool) :
    ∀ l : List String, (l.map (removeEffect fails)).map Event.path = l
  | [] => rfl
  | q :: rest => by simp [path_removeEffect, map_path_removeEffect fails rest]

theorem all_isRemoved_noFail :
    ∀ l : List String, (l.map (removeEffect (fun _ => false))).all Event.isRemoved = true
  | [] => rfl
  | q :: rest => by simp [removeEffect, Event.isRemoved, all_isRemoved_noFail rest]

theorem mem_map_removeEffect_error (fails : String → Bool) (p : String) :
    ∀ l : List String,
      (Event.errorMsg p p ∈ l.map (removeEffect fails)) ↔ (p ∈ l ∧ fails p = true)
  | [] => by simp
  | q :: rest => by
    by_cases hf : fails q = true
    · have hq : removeEffect fails q = Event.errorMsg q q := by simp [removeEffect, hf]
      simp only [List.map_cons, hq, List.mem_cons, mem_map_removeEffect_error fails p rest,
        Event.errorMsg.injEq, and_self]
      constructor
      · rintro (rfl | ⟨hp, hfp⟩)
        · exact ⟨Or.inl rfl, hf⟩
        · exact ⟨Or.inr hp, hfp⟩
      · rintro ⟨rfl | hp, hfp⟩
        · exact Or.inl rfl
        · exact Or.inr ⟨hp, hfp⟩
    · have hf' : fails q = false := by revert hf; cases fails q <;> simp
      have hq : removeEffect fails q = Event.removed q := by simp [removeEffect, hf']
      simp only [List.map_cons, hq, List.mem_cons, mem_map_removeEffect_error fails p rest]
      constructor
      · rintro (h | ⟨hp, hfp⟩)
        · exact absurd h (by simp)
        · exact ⟨Or.inr hp, hfp⟩
      · rintro ⟨rfl | hp, hfp⟩
        · simp [hf'] at hfp
        · exact Or.inr ⟨hp, hfp⟩

theorem mem_attempted_files (keep : List String) (root : String) (files : List String)
    (p : String) (h : p ∈ attempted_files keep root files) :
    ∃ f, f ∈ files ∧ p = os_path_join root f := by
  simp only [attempted_files] at h
  rcases List.mem_filterMap.mp h with ⟨f, hf, hgf⟩
  refine ⟨f, hf, ?_⟩
  by_cases hk : str_lower (splitext f).snd ∈ keep
  · rw [if_pos hk] at hgf; exact absurd hgf (by simp)
  · rw [if_neg hk] at hgf; exact (Option.some.inj hgf).symm

theorem mem_attempted_paths (keep : List String) :
    ∀ (walk : List WalkEntry) (p : String), p ∈ attempted_paths keep walk →
      ∃ e, e ∈ walk ∧ ∃ f, f ∈ e.files ∧ p = os_path_join e.root f
  | [], p, h => absurd h (List.not_mem_nil p)
  | entry :: rest, p, h => by
    simp only [attempted_paths, List.mem_append] at h
    rcases h with h1 | h2
    · rcases mem_attempted_files keep entry.root entry.files p h1 with ⟨f, hf, hp⟩
      exact ⟨entry, List.mem_cons_self entry rest, f, hf, hp⟩
    · rcases mem_attempted_paths keep rest p h2 with ⟨e, he, hrest⟩
      exact ⟨e, List.mem_cons_of_mem entry he, hrest⟩

theorem applyEvents_dirs : ∀ (evs : List Event) (s : FSState), (applyEvents s evs).dirs = s.dirs
  | [], _ => rfl
  | ev :: rest, s => by
    have h := applyEvents_dirs rest (applyEvent s ev)
    have hstep : (applyEvent s ev).dirs = s.dirs := by cases ev <;> rfl
    calc (applyEvents s (ev :: rest)).dirs = (applyEvents (applyEvent s ev) rest).dirs := rfl
      _ = (applyEvent s ev).dirs := h
      _ = s.dirs := hstep

/-! ## Claims -/

/-- C1 counterexample: the repository does contribute failure-handling
logic of its own.  On a walk of `/u` with files `a.md` and `b.md`, a keep
list `[".txt"]` and an environment in which removing `/u/a.md` raises
`OSError`, the spec's reading of the example (unmodified library calls,
no contributed failure handling, `clean_directory_unhandled`) propagates
the `OSError` to the caller, whereas the code as written
(`clean_directory_exc`, with its `try`/`except OSError`) returns
normally, records the error message, and still removes `/u/b.md`. -/
theorem clean_directory_not_unmodified :
    clean_directory_unhandled [".txt"] (fun p => p == "/u/a.md")
        [WalkEntry.mk "/u" [] ["a.md", "b.md"]] = Except.error "/u/a.md"
    ∧ clean_directory_exc [".txt"] (fun p => p == "/u/a.md")
        [WalkEntry.mk "/u" [] ["a.md", "b.md"]]
      = Except.ok [Event.errorMsg "/u/a.md" "/u/a.md", Event.removed "/u/b.md"] :=
  ⟨rfl, rfl⟩

/-- C1 (amended): the repository contributes one original function, the
example `clean_directory`, and that function contains failure-handling
logic of its own: its `try`/`except OSError` catches every `OSError`
raised by `os.remove`, so the call always returns normally; only in an
environment where no removal fails does it coincide with the plain
composition of unmodified library calls. -/
theorem clean_directory_failure_handling (walk : List WalkEntry) (keep : List String)
    (fails : String → Bool) :
    clean_directory_exc keep fails walk = Except.ok (clean_directory walk keep fails)
    ∧ clean_directory_unhandled keep (fun _ => false) walk
        = Except.ok (clean_directory walk keep (fun _ => false)) :=
  ⟨clean_directory_exc_eq keep fails walk, clean_directory_unhandled_noFail keep walk⟩

/-- C2 counterexample: the repository does contain executable logic with
data flow, about which properties can be asserted.  The example
`clean_directory`, run on a concrete walk of `/x` with files `keep.txt`
and `drop.md` and keep list `[".txt"]`, performs exactly one removal,
`/x/drop.md`, and maps the corresponding filesystem state to one in which
exactly that file is gone — a concrete executable behavior satisfying a
concrete asserted property. -/
theorem clean_directory_concrete_run :
    clean_directory [WalkEntry.mk "/x" [] ["keep.txt", "drop.md"]] [".txt"] (fun _ => false)
      = [Event.removed "/x/drop.md"]
    ∧ applyEvents (FSState.mk ["/x"] ["/x/keep.txt", "/x/drop.md"])
        (clean_directory [WalkEntry.mk "/x" [] ["keep.txt", "drop.md"]] [".txt"] (fun _ => false))
      = FSState.mk ["/x"] ["/x/keep.txt"] :=
  ⟨by decide, by decide⟩

/-- C2 (amended): the repository as shipped has no entry point and no
component that runs, but its example snippet is executable logic with
data flow whose behavior admits assertable properties — for instance,
every call emits exactly one event per path passed to `os.remove`, and in
an environment without removal failures every event is a successful
removal. -/
theorem clean_directory_behavioral_properties (walk : List WalkEntry) (keep : List String)
    (fails : String → Bool) :
    (clean_directory walk keep fails).length = (attempted_paths keep walk).length
    ∧ (clean_directory walk keep (fun _ => false)).all Event.isRemoved = true := by
  refine ⟨?_, ?_⟩
  · rw [clean_directory_eq]; simp
  · rw [clean_directory_eq]; exact all_isRemoved_noFail _

/-- C3 counterexample: a file whose lowercased extension is not in the
keep list need not end up removed.  With keep list `[".txt"]` (lowercase
and dot-prefixed), a walk of `/d` containing only `b.log` (lowercased
extension `".log"`, not in the keep list), and an environment in which
`os.remove("/d/b.log")` raises `OSError`, the call only prints an error
message and the file is still present afterwards — so "the file is
removed exactly when the lowercased extension is not a member of
extensions_to_keep" fails in the left-to-right direction unless the
`os.remove` call succeeds. -/
theorem clean_directory_failed_remove_keeps_file :
    str_lower (splitext "b.log").snd = ".log"
    ∧ ([".txt"].contains ".log") = false
    ∧ clean_directory [WalkEntry.mk "/d" [] ["b.log"]] [".txt"] (fun p => p == "/d/b.log")
        = [Event.errorMsg "/d/b.log" "/d/b.log"]
    ∧ (applyEvents (FSState.mk ["/d"] ["/d/b.log"])
        (clean_directory [WalkEntry.mk "/d" [] ["b.log"]] [".txt"] (fun p => p == "/d/b.log"))).files
        = ["/d/b.log"] :=
  ⟨by decide, by decide, by decide, by decide⟩

/-- C3 (amended): for every call — in particular every call whose
`extensions_to_keep` entries are lowercase, dot-prefixed extension
strings like `".txt"`, the claim's precondition, which the rule does not
even need — and for every file reported by `os.walk`, in every entry of
the walk and at every position of that entry's `files` list: the call's
event list is exactly the concatenation, over the walk entries in order
and over each entry's files in order, of that single file's
contribution, namely nothing when the lowercased extension returned by
`os.path.splitext` for its name is a member of `extensions_to_keep` (the
file is left unchanged and no `os.remove` call is made), and otherwise
exactly one `os.remove` attempt on the joined path — the removal when
`os.remove` succeeds, only an error print when it raises `OSError`.  So
removal is attempted exactly when the lowercased extension is not kept,
and the file is removed exactly when, in addition, `os.remove`
succeeds. -/
theorem clean_directory_removal_rule (walk : List WalkEntry) (keep : List String)
    (fails : String → Bool) :
    clean_directory walk keep fails =
      walk.flatMap (fun e => e.files.flatMap (fun file =>
        if str_lower (splitext file).snd ∈ keep then []
        else [if fails (os_path_join e.root file) = true
              then Event.errorMsg (os_path_join e.root file) (os_path_join e.root file)
              else Event.removed (os_path_join e.root file)])) :=
  clean_directory_flatMap keep fails walk

/-- C4 counterexample: the repository's treatment of errors is not only
descriptive — the example implements a recovery policy.  On a walk of
`/r` with files `a.tmp` and `b.tmp`, keep list `[".txt"]` and an
environment in which removing `/r/a.tmp` raises `OSError`, the call
prints an error message for `/r/a.tmp` in place of the removal and then
goes on to remove `/r/b.tmp`: a caught exception, a substituted action,
and continued traversal. -/
theorem clean_directory_recovers_and_continues :
    clean_directory [WalkEntry.mk "/r" [] ["a.tmp", "b.tmp"]] [".txt"] (fun p => p == "/r/a.tmp")
      = [Event.errorMsg "/r/a.tmp" "/r/a.tmp", Event.removed "/r/b.tmp"] := by decide

/-- C4 (amended): the repository defines no error taxonomy, but its
example `clean_directory` does define a recovery and propagation policy
of its own: the events of a call are exactly, in traversal order, one
outcome per path passed to `os.remove` — the error print when that
removal raises, the removal print when it succeeds — so a failing
removal is absorbed in place and never alters the treatment of the other
files. -/
theorem clean_directory_recovery_policy (walk : List WalkEntry) (keep : List String)
    (fails : String → Bool) :
    clean_directory walk keep fails = (attempted_paths keep walk).map (removeEffect fails) :=
  clean_directory_eq keep fails walk

/-- C5: if `os.remove` raises `OSError` for some file, the exception is
caught inside the loop and an error message is printed, and traversal
continues.  The paths of the emitted events are exactly the attempted
paths, independently of which removals fail, so one failure never
prevents a later attempt; an error event for a path occurs exactly when
that path is attempted and its removal fails; and the run in the
exception monad always returns `Except.ok`, so no `OSError` propagates
out of `clean_directory` to its caller. -/
theorem clean_directory_error_events (walk : List WalkEntry) (keep : List String)
    (fails : String → Bool) :
    (clean_directory walk keep fails).map Event.path = attempted_paths keep walk
    ∧ (∀ p : String, Event.errorMsg p p ∈ clean_directory walk keep fails
        ↔ p ∈ attempted_paths keep walk ∧ fails p = true)
    ∧ clean_directory_exc keep fails walk = Except.ok (clean_directory walk keep fails) := by
  refine ⟨?_, fun p => ?_, clean_directory_exc_eq keep fails walk⟩
  · rw [clean_directory_eq]; exact map_path_removeEffect fails _
  · rw [clean_directory_eq]; exact mem_map_removeEffect_error fails p _

/-- C7: the call never touches the directory structure — applying the
events of any call to any filesystem state leaves the set of directories
unchanged — and every event concerns a path built by `os.path.join` from
the root of some walk entry and an element of that entry's `files` list,
so only such paths are ever passed to `os.remove`. -/
theorem clean_directory_frame (s : FSState) (walk : List WalkEntry) (keep : List String)
    (fails : String → Bool) :
    (applyEvents s (clean_directory walk keep fails)).dirs = s.dirs
    ∧ ∀ ev ∈ clean_directory walk keep fails,
        ∃ e, e ∈ walk ∧ ∃ f, f ∈ e.files ∧ Event.path ev = os_path_join e.root f := by
  refine ⟨applyEvents_dirs _ s, fun ev hev => ?_⟩
  have h1 : Event.path ev ∈ (clean_directory walk keep fails).map Event.path :=
    List.mem_map_of_mem Event.path hev
  rw [clean_directory_eq, map_path_removeEffect] at h1
  exact mem_attempted_paths keep walk (Event.path ev) h1

/-- C7 witness: the frame property applied to the concrete state with
directory `/w` and file `/w/a.md`, a walk of `/w` reporting `a.md`, keep
list `[".txt"]` and no removal failures: the directories are unchanged
and the single removal event's path is a root-file join. -/
theorem clean_directory_frame_witness :
    (applyEvents (FSState.mk ["/w"] ["/w/a.md"])
        (clean_directory [WalkEntry.mk "/w" [] ["a.md"]] [".txt"] (fun _ => false))).dirs = ["/w"]
    ∧ ∃ e, e ∈ [WalkEntry.mk "/w" [] ["a.md"]]
        ∧ ∃ f, f ∈ e.files ∧ Event.path (Event.removed "/w/a.md") = os_path_join e.root f :=
  ⟨(clean_directory_frame (FSState.mk ["/w"] ["/w/a.md"])
      [WalkEntry.mk "/w" [] ["a.md"]] [".txt"] (fun _ => false)).1,
   (clean_directory_frame (FSState.mk ["/w"] ["/w/a.md"])
      [WalkEntry.mk "/w" [] ["a.md"]] [".txt"] (fun _ => false)).2
      (Event.removed "/w/a.md") (by decide)⟩
